import Mathlib

/-!
Verification of the PM Co-Pilot orchestration core and its Streamlit front
end.  The conversation-state store, the operation vocabulary and the turn
orchestrator live in modules (`pm_copilot/state.py`, `pm_copilot/orchestrator.py`)
that are not part of the staged sources, so those definitions are modelled
from the specification; the front-end logic (question extraction, selective
response prefixing, post-turn history rewrite in `src/pm_copilot/app.py`) is
embedded directly from the source.
-/

namespace PMCopilot

/-- Modelled from the spec: the two conversation phases of the mode state
machine (`state.py` is not in the staged sources). -/
inductive Phase
  | gathering
  | in_mode
deriving DecidableEq, Repr

/-- Modelled from the spec: assumption type enum
(technical | organizational | value | market | other). -/
inductive AType
  | technical
  | organizational
  | value
  | market
  | other
deriving DecidableEq, Repr

/-- Modelled from the spec: assumption impact enum (high | medium | low). -/
inductive Impact
  | high
  | medium
  | low
deriving DecidableEq, Repr

/-- Modelled from the spec: assumption confidence enum; `partlyValidated`
stands for the source's middle ("partial") confidence level. -/
inductive Confidence
  | guessed
  | partlyValidated
  | validated
deriving DecidableEq, Repr

/-- Modelled from the spec: assumption status enum; `open_` stands for the
source's "open" status. -/
inductive AStatus
  | open_
  | resolved
deriving DecidableEq, Repr

/-- Modelled from the spec: the recoverable operation errors
(`InvalidTransition`, `UnknownAssumption`). -/
inductive OpError
  | invalidTransition
  | unknownAssumption
deriving DecidableEq, Repr

/-- Modelled from the spec: one entry of the Assumption Register
(`state.py` is not in the staged sources). -/
structure Assumption where
  id : Nat
  claim : String
  type : AType
  impact : Impact
  confidence : Confidence
  status : AStatus
  basis : String
  recommended_action : String
deriving DecidableEq, Repr

/-- Modelled from the spec: the optional fields of an `update_assumption`
call; the stable id is never rewritten. -/
structure AssumptionUpdate where
  claim : Option String
  type : Option AType
  impact : Option Impact
  confidence : Option Confidence
  status : Option AStatus
  basis : Option String
  recommended_action : Option String
deriving DecidableEq, Repr

/-- Modelled from the spec: decision criteria of the Document Skeleton
(ordered `proceed_if` / `do_not_proceed_if` condition lists). -/
structure DecisionCriteria where
  proceed_if : List String
  do_not_proceed_if : List String
deriving DecidableEq, Repr

/-- Modelled from the spec: the Document Skeleton (`state.py` is not in the
staged sources). `success_metrics` is an association list from metric
category to description. -/
structure Skeleton where
  problem_statement : Option String
  stakeholders : List String
  success_metrics : List (String × String)
  decision_criteria : DecisionCriteria
deriving DecidableEq, Repr

/-- Modelled from the spec: the fields an `update_skeleton` call may supply.
An absent `problem_statement` means "keep the current one". -/
structure SkeletonUpdate where
  problem_statement : Option String
  stakeholders : List String
  success_metrics : List (String × String)
  proceed_if : List String
  do_not_proceed_if : List String
deriving DecidableEq, Repr

/-- Modelled from the spec: the routing context
(probes_fired, patterns_fired, last_routing_decision, conversation_summary). -/
structure RoutingContext where
  probes_fired : List String
  patterns_fired : List String
  last_routing_decision : String
  conversation_summary : String
deriving DecidableEq, Repr

/-- One {role, content} entry of the message history. -/
structure Message where
  role : String
  content : String
deriving DecidableEq, Repr

/-- Modelled from the spec: a rendered artifact together with the turn
number at which it was produced. -/
structure Artifact where
  text : String
  turn : Nat
deriving DecidableEq, Repr

/-- Modelled from the spec: the Conversation State store owned by the
orchestrator (`state.py` is not in the staged sources). -/
structure ConvState where
  phase : Phase
  active_mode : Option String
  turn_count : Nat
  message_history : List Message
  routing_context : RoutingContext
  assumption_register : List Assumption
  next_assumption_id : Nat
  document_skeleton : Skeleton
  latest_artifact : Option Artifact
  pending_questions : Option (List (String × String))
deriving DecidableEq, Repr

/-- Modelled from the spec: initial routing context. -/
def initRouting : RoutingContext :=
  { probes_fired := [], patterns_fired := [],
    last_routing_decision := "", conversation_summary := "" }

/-- Modelled from the spec: initial (empty) Document Skeleton. -/
def initSkeleton : Skeleton :=
  { problem_statement := none, stakeholders := [], success_metrics := [],
    decision_criteria := { proceed_if := [], do_not_proceed_if := [] } }

/-- Modelled from the spec: the session's initial Conversation State
(`init_session_state`, not in the staged sources): gathering phase, no
active mode, empty history and registers. -/
def initState : ConvState :=
  { phase := Phase.gathering, active_mode := none, turn_count := 0,
    message_history := [], routing_context := initRouting,
    assumption_register := [], next_assumption_id := 1,
    document_skeleton := initSkeleton, latest_artifact := none,
    pending_questions := none }

/-- Modelled from the spec: `record_probe_fired(probe_id)` inserts into
`routing_context.probes_fired` if absent and is a no-op otherwise. -/
def record_probe_fired (p : String) (st : ConvState) : ConvState :=
  if p ∈ st.routing_context.probes_fired then st
  else { st with routing_context :=
    { st.routing_context with
      probes_fired := st.routing_context.probes_fired ++ [p] } }

/-- Modelled from the spec: `record_pattern_fired(pattern_id)`, same
idempotent-insert contract against `patterns_fired`. -/
def record_pattern_fired (q : String) (st : ConvState) : ConvState :=
  if q ∈ st.routing_context.patterns_fired then st
  else { st with routing_context :=
    { st.routing_context with
      patterns_fired := st.routing_context.patterns_fired ++ [q] } }

/-- Modelled from the spec: `update_conversation_summary(text)` overwrites
`routing_context.conversation_summary`. -/
def update_conversation_summary (t : String) (st : ConvState) : ConvState :=
  { st with routing_context :=
    { st.routing_context with conversation_summary := t } }

/-- Modelled from the spec: `register_assumption(...)` allocates a new
stable id and inserts into the Assumption Register; a fresh assumption is
open. -/
def register_assumption (claim : String) (ty : AType) (imp : Impact)
    (conf : Confidence) (basis act : String) (st : ConvState) : ConvState :=
  { st with
    assumption_register := st.assumption_register ++
      [{ id := st.next_assumption_id, claim := claim, type := ty,
         impact := imp, confidence := conf, status := AStatus.open_,
         basis := basis, recommended_action := act }],
    next_assumption_id := st.next_assumption_id + 1 }

/-- Modelled from the spec: apply the supplied fields of an assumption
update, keeping the stable id. -/
def applyAssumptionUpdate (u : AssumptionUpdate) (a : Assumption) : Assumption :=
  { a with
    claim := u.claim.getD a.claim,
    type := u.type.getD a.type,
    impact := u.impact.getD a.impact,
    confidence := u.confidence.getD a.confidence,
    status := u.status.getD a.status,
    basis := u.basis.getD a.basis,
    recommended_action := u.recommended_action.getD a.recommended_action }

/-- Modelled from the spec: `update_assumption(id, fields)` mutates the
entry in place by id and fails with `UnknownAssumption` when the id is not
present. -/
def update_assumption (i : Nat) (u : AssumptionUpdate) (st : ConvState) :
    Except OpError ConvState :=
  if st.assumption_register.any (fun a => a.id = i) then
    Except.ok { st with assumption_register :=
      st.assumption_register.map fun a =>
        if a.id = i then applyAssumptionUpdate u a else a }
  else Except.error OpError.unknownAssumption

/-- Modelled from the spec: union a batch of stakeholders into the current
set, never duplicating an already-present name. -/
def unionInto (base add : List String) : List String :=
  add.foldl (fun acc x => if x ∈ acc then acc else acc ++ [x]) base

/-- Modelled from the spec: set one metric category's description in the
`success_metrics` mapping (replace when present, append when new). -/
def setMetric (ms : List (String × String)) (kv : String × String) :
    List (String × String) :=
  if ms.any (fun e => e.1 = kv.1) then
    ms.map fun e => if e.1 = kv.1 then (e.1, kv.2) else e
  else ms ++ [kv]

/-- Modelled from the spec: `update_skeleton(fields...)` merges into the
Document Skeleton: stakeholders are unioned, the decision-criteria lists
are appended to, and `problem_statement` is replaced wholesale only when a
value is supplied. -/
def mergeSkeleton (sk : Skeleton) (u : SkeletonUpdate) : Skeleton :=
  { problem_statement :=
      match u.problem_statement with
      | some p => some p
      | none => sk.problem_statement,
    stakeholders := unionInto sk.stakeholders u.stakeholders,
    success_metrics := u.success_metrics.foldl setMetric sk.success_metrics,
    decision_criteria :=
      { proceed_if := sk.decision_criteria.proceed_if ++ u.proceed_if,
        do_not_proceed_if :=
          sk.decision_criteria.do_not_proceed_if ++ u.do_not_proceed_if } }

/-- Modelled from the spec: the `update_skeleton` operation on the state
store. -/
def update_skeleton (u : SkeletonUpdate) (st : ConvState) : ConvState :=
  { st with document_skeleton := mergeSkeleton st.document_skeleton u }

/-- Modelled from the spec: `enter_mode(mode_id)` is legal only while
gathering and fails with `InvalidTransition` otherwise. -/
def enter_mode (m : String) (st : ConvState) : Except OpError ConvState :=
  match st.phase with
  | Phase.gathering =>
      Except.ok { st with phase := Phase.in_mode, active_mode := some m }
  | Phase.in_mode => Except.error OpError.invalidTransition

/-- Modelled from the spec: `complete_mode()` is legal only while in a mode
and fails with `InvalidTransition` otherwise; it is the only way out of a
mode. -/
def complete_mode (st : ConvState) : Except OpError ConvState :=
  match st.phase with
  | Phase.in_mode =>
      Except.ok { st with phase := Phase.gathering, active_mode := none }
  | Phase.gathering => Except.error OpError.invalidTransition

/-- Modelled from the spec: the problem-statement section body; the render
degrades gracefully to a placeholder when the skeleton is sparse. -/
def problemText : Option String → String
  | some p => p
  | none => "(to be defined)"

/-- Modelled from the spec: render a bulleted line per list entry. -/
def bulletLines (xs : List String) : String :=
  xs.foldr (fun x acc => "- " ++ (x ++ ("\n" ++ acc))) ""

/-- Modelled from the spec: render the metric mapping, one line per
category. -/
def metricLines (xs : List (String × String)) : String :=
  xs.foldr (fun kv acc => "- " ++ (kv.1 ++ (": " ++ (kv.2 ++ ("\n" ++ acc))))) ""

/-- Impact rendered as in the displayed register. -/
def impactText : Impact → String
  | Impact.high => "high"
  | Impact.medium => "medium"
  | Impact.low => "low"

/-- Confidence rendered as in the displayed register. -/
def confidenceText : Confidence → String
  | Confidence.guessed => "guessed"
  | Confidence.partlyValidated => "partial"
  | Confidence.validated => "validated"

/-- Modelled from the spec: the assumptions appendix, one line per register
entry (so every high-impact guessed assumption is listed). -/
def assumptionLines (xs : List Assumption) : String :=
  xs.foldr
    (fun a acc =>
      "- " ++ (a.claim ++ (" [impact: " ++ (impactText a.impact ++
        (", confidence: " ++ (confidenceText a.confidence ++ ("]\n" ++ acc)))))))
    ""

/-- Modelled from the spec: the deterministic Artifact Generator, a pure
function of the Skeleton and the Assumption Register that begins with the
canonical "Problem Brief" header and renders every section. -/
def renderArtifact (sk : Skeleton) (reg : List Assumption) : String :=
  "# Problem Brief" ++
    ("\n\n## Problem Statement\n" ++
      (problemText sk.problem_statement ++
        ("\n\n## Stakeholders\n" ++
          (bulletLines sk.stakeholders ++
            ("\n## Success Metrics\n" ++
              (metricLines sk.success_metrics ++
                ("\n## Decision Criteria\n### Proceed if\n" ++
                  (bulletLines sk.decision_criteria.proceed_if ++
                    ("### Do not proceed if\n" ++
                      (bulletLines sk.decision_criteria.do_not_proceed_if ++
                        ("\n## Assumptions\n" ++ assumptionLines reg)))))))))))

/-- Modelled from the spec: `generate_artifact()` renders the current
skeleton and register and stores the result (with the current turn number)
as `latest_artifact`; it changes neither phase nor mode. -/
def generate_artifact (st : ConvState) : ConvState :=
  { st with
    latest_artifact := some ⟨renderArtifact st.document_skeleton st.assumption_register, st.turn_count⟩ }

/-- The stored artifact's text, when one exists. -/
def artifactText (st : ConvState) : Option String :=
  st.latest_artifact.map Artifact.text

/-- Modelled from the spec: the operation vocabulary the reasoning service
may invoke in a tool round. -/
inductive OpCall
  | recordProbe (p : String)
  | recordPattern (q : String)
  | updateSummary (t : String)
  | registerAssumption (claim : String) (ty : AType) (imp : Impact)
      (conf : Confidence) (basis act : String)
  | updateAssumption (i : Nat) (u : AssumptionUpdate)
  | updateSkeleton (u : SkeletonUpdate)
  | enterMode (m : String)
  | completeMode
  | generateArtifact

/-- Modelled from the spec: a failed operation is recovered locally and
reported as a no-op on the state. -/
def recover (st : ConvState) : Except OpError ConvState → ConvState
  | Except.ok s => s
  | Except.error _ => st

/-- Modelled from the spec: execute one requested operation against the
real state store (errors recovered locally as no-ops). -/
def execOp : OpCall → ConvState → ConvState
  | OpCall.recordProbe p, st => record_probe_fired p st
  | OpCall.recordPattern q, st => record_pattern_fired q st
  | OpCall.updateSummary t, st => update_conversation_summary t st
  | OpCall.registerAssumption c ty imp conf b act, st =>
      register_assumption c ty imp conf b act st
  | OpCall.updateAssumption i u, st => recover st (update_assumption i u st)
  | OpCall.updateSkeleton u, st => update_skeleton u st
  | OpCall.enterMode m, st => recover st (enter_mode m st)
  | OpCall.completeMode, st => recover st (complete_mode st)
  | OpCall.generateArtifact, st => generate_artifact st

/-- Execute one round's operation requests in order. -/
def execOps (ops : List OpCall) (st : ConvState) : ConvState :=
  ops.foldl (fun s c => execOp c s) st

/-- Modelled from the spec: one round of the reasoning-service exchange —
plain text (terminating), operation requests (continuing), or a service
failure. -/
inductive RoundResp
  | calls (ops : List OpCall)
  | text (t : String)
  | unavailable

/-- Modelled from the spec: the generic fallback reply surfaced when the
tool-exchange round limit is reached (`RoutingExhausted`). -/
def apologyReply : String :=
  "I ran into an internal limit while processing that. Please try again."

/-- Modelled from the spec: the tool-exchange loop. Each round either ends
with plain text, executes the requested operations and continues, or fails
as `ServiceUnavailable` (`none`); an exhausted script is the round limit
and surfaces the fallback reply with state preserved. -/
def exchange : List RoundResp → ConvState → Option (ConvState × String)
  | [], st => some (st, apologyReply)
  | RoundResp.text t :: _, st => some (st, t)
  | RoundResp.unavailable :: _, _ => none
  | RoundResp.calls ops :: rest, st => exchange rest (execOps ops st)

/-- Modelled from the spec: `run_turn(user_message)`. The user message is
appended first; on success the assistant reply is appended and the turn
counted; on `ServiceUnavailable` the turn fails with the state unchanged
except for the appended user message, so it can be resubmitted. -/
def run_turn (script : List RoundResp) (msg : String) (st : ConvState) :
    Option String × ConvState :=
  let st1 := { st with message_history :=
    st.message_history ++ [{ role := "user", content := msg }] }
  match exchange script st1 with
  | some (st2, reply) =>
      (some reply,
        { st2 with
          message_history :=
            st2.message_history ++ [{ role := "assistant", content := reply }],
          turn_count := st2.turn_count + 1 })
  | none => (none, st1)

/-- One reachability step of the conversation: an executed operation or a
whole `run_turn` call. -/
inductive Step (st : ConvState) : ConvState → Prop
  | op (c : OpCall) : Step st (execOp c st)
  | turn (script : List RoundResp) (msg : String) : Step st (run_turn script msg st).2

/-- States reachable from a given state by operations and turns. -/
def ReachableFrom (a b : ConvState) : Prop :=
  Relation.ReflTransGen Step a b

/-- States reachable in a session (from the initial state). -/
def Reachable (st : ConvState) : Prop :=
  ReachableFrom initState st

/-- The conversation-state invariant: fired probe/pattern ids are free of
duplicates, and a mode is active exactly while the phase is `in_mode`. -/
def StateInv (st : ConvState) : Prop :=
  st.routing_context.probes_fired.Nodup ∧
  st.routing_context.patterns_fired.Nodup ∧
  (st.active_mode ≠ none ↔ st.phase = Phase.in_mode)

/-- `t` occurs inside `s` (substring containment, stated on the character
lists). -/
def Contains (s t : String) : Prop :=
  ∃ pre post : List Char, s.toList = pre ++ t.toList ++ post

/-- Python's whitespace class as used by `re`'s `\s` and `str.strip()` on
the ASCII texts at hand. -/
def pyIsSpace (c : Char) : Bool :=
  c = ' ' || c = '\t' || c = '\n' || c = '\r' || c = '\x0b' || c = '\x0c'

/-- The literal `*` class of the question regex. -/
def isStar (c : Char) : Bool := c = '*'

/-- The `[:\s]` class of the question regex. -/
def isColonSpace (c : Char) : Bool := c = ':' || pyIsSpace c

/-- The `[^\n*]` class of the question regex (title characters). -/
def isTitleChar (c : Char) : Bool := !(c = '\n' || c = '*')

/-- Length of the maximal prefix of `l` whose characters satisfy `p`. -/
def runLen (p : Char → Bool) : List Char → Nat
  | [] => 0
  | c :: rest => if p c then runLen p rest + 1 else 0

/-- `descRange k lo = [k, k-1, ..., lo]` (empty when `k < lo`): the
repetition counts a greedy quantifier tries, largest first. -/
def descRange : Nat → Nat → List Nat
  | 0, lo => if lo = 0 then [0] else []
  | k + 1, lo => if k + 1 < lo then [] else (k + 1) :: descRange k lo

/-- The suffixes a greedy `p{lo,hi}` repetition can leave, in the order a
backtracking engine tries them. -/
def repRests (p : Char → Bool) (lo hi : Nat) (s : List Char) : List (List Char) :=
  (descRange (min hi (runLen p s)) lo).map fun i => s.drop i

/-- Like `repRests` but also keeps what the repetition consumed (for a
capturing group such as `(\d+)`). -/
def repTakes (p : Char → Bool) (lo hi : Nat) (s : List Char) :
    List (List Char × List Char) :=
  (descRange (min hi (runLen p s)) lo).map fun i => (s.take i, s.drop i)

/-- Match a literal, returning the rest of the input. -/
def matchLit : List Char → List Char → Option (List Char)
  | [], s => some s
  | _ :: _, [] => none
  | c :: cs, d :: ds => if c = d then matchLit cs ds else none

/-- The final greedy `([^\n*]+)` capture: the maximal nonempty title run. -/
def titleTake (s : List Char) : Option (List Char × List Char) :=
  match runLen isTitleChar s with
  | 0 => none
  | k + 1 => some (s.take (k + 1), s.drop (k + 1))

/-- Backtracking match of app.py's question regex
`\*{0,2}Question\s+(\d+)\*{0,2}[:\s]*\*{0,2}([^\n*]+)` at the head of `s`,
returning the two captures and the rest of the input. -/
def matchQuestionAt (s : List Char) : Option (List Char × List Char × List Char) :=
  (repRests isStar 0 2 s).findSome? fun s1 =>
    (matchLit "Question".toList s1).bind fun s2 =>
      (repRests pyIsSpace 1 s2.length s2).findSome? fun s3 =>
        (repTakes Char.isDigit 1 s3.length s3).findSome? fun nt =>
          (repRests isStar 0 2 nt.2).findSome? fun s5 =>
            (repRests isColonSpace 0 s5.length s5).findSome? fun s6 =>
              (repRests isStar 0 2 s6).findSome? fun s7 =>
                (titleTake s7).map fun tt => (nt.1, tt.1, tt.2)

/-- `re.findall` scan: try a match at each position, continue after each
non-overlapping match (fuel is the input length; every match consumes at
least one character). -/
def scanQuestions : Nat → List Char → List (List Char × List Char)
  | 0, _ => []
  | fuel + 1, s =>
    match matchQuestionAt s with
    | some (num, title, rest) => (num, title) :: scanQuestions fuel rest
    | none =>
      match s with
      | [] => []
      | _ :: tail => scanQuestions fuel tail

/-- `re.findall(pattern, text)` for the question pattern: the raw
(number, title) capture pairs in order of appearance. -/
def findallQuestions (text : String) : List (String × String) :=
  (scanQuestions text.toList.length text.toList).map fun nt =>
    (String.mk nt.1, String.mk nt.2)

/-- Python `str.strip()` on the character list. -/
def pyStripList (l : List Char) : List Char :=
  ((l.dropWhile pyIsSpace).reverse.dropWhile pyIsSpace).reverse

/-- Python `str.strip()`. -/
def pyStrip (s : String) : String :=
  String.mk (pyStripList s.toList)

/-- app.py `extract_questions`: the numbered questions of an assistant
response, titles stripped. -/
def extract_questions (text : String) : List (String × String) :=
  (findallQuestions text).map fun nt => (nt.1, pyStrip nt.2)

/-- Python truthiness of the optional pending-question list (`None` and the
empty list are falsy). -/
def truthy : Option (List α) → Bool
  | none => false
  | some [] => false
  | some (_ :: _) => true

/-- app.py: the question numbers whose checkbox the user left selected
(checkboxes default to selected). -/
def selectedNums (qs : List (String × String)) (sel : String → Bool) : List String :=
  (qs.filter fun q => sel q.1).map fun q => q.1

/-- app.py: `", ".join(f"Question {n}" for n in selected)`. -/
def questionLabels (ns : List String) : String :=
  String.intercalate ", " (ns.map fun n => "Question " ++ n)

/-- app.py: build the orchestrator input; the tagged prefix is added only
when the user deselected some (but not all) pending questions. -/
def orchestrator_input (pending : Option (List (String × String)))
    (sel : String → Bool) (user_input : String) : String :=
  match pending with
  | none => user_input
  | some qs =>
    let selected := selectedNums qs sel
    if selected ≠ [] ∧ selected.length < qs.length then
      "[User is responding to " ++ (questionLabels selected ++ ("]\n\n" ++ user_input))
    else user_input

/-- app.py: pending questions are cleared when a (truthy) pending list is
consumed by the submitted input. -/
def consumePending (st : ConvState) : ConvState :=
  if truthy st.pending_questions then { st with pending_questions := none } else st

/-- app.py history rewrite helper: replace the content of the first user
message (scanning from the given end) whose content equals `target`. -/
def rewriteFirstUser (target clean : String) : List Message → List Message
  | [] => []
  | m :: rest =>
    if m.role = "user" ∧ m.content = target then { m with content := clean } :: rest
    else m :: rewriteFirstUser target clean rest

/-- app.py lines 164-170: scan the history from the end and replace the
stored orchestrator input with the clean user input. -/
def rewriteLastUser (target clean : String) (l : List Message) : List Message :=
  (rewriteFirstUser target clean l.reverse).reverse

/-- app.py chat-input handler: build the orchestrator input, clear consumed
pending questions, run the turn, rewrite the stored user message to the
clean version when a selection prefix was added, and extract the next
turn's pending questions from the response. -/
def app_turn (script : List RoundResp) (sel : String → Bool)
    (user_input : String) (st : ConvState) : ConvState :=
  let inp := orchestrator_input st.pending_questions sel user_input
  match run_turn script inp (consumePending st) with
  | (none, st1) => st1
  | (some resp, st1) =>
    let st2 :=
      if inp = user_input then st1
      else { st1 with message_history := rewriteLastUser inp user_input st1.message_history }
    let qs := extract_questions resp
    { st2 with pending_questions := if qs = [] then none else some qs }

end PMCopilot

namespace PMCopilot

theorem toList_append (a b : String) : (a ++ b).toList = a.toList ++ b.toList := by
  cases a
  cases b
  rfl

theorem contains_self (t : String) : Contains t t :=
  ⟨[], [], by simp⟩

theorem contains_appendL {a t : String} (b : String) (h : Contains a t) :
    Contains (a ++ b) t := by
  obtain ⟨pre, post, hp⟩ := h
  exact ⟨pre, post ++ b.toList, by rw [toList_append, hp]; simp⟩

theorem contains_appendR (a : String) {b t : String} (h : Contains b t) :
    Contains (a ++ b) t := by
  obtain ⟨pre, post, hp⟩ := h
  exact ⟨a.toList ++ pre, post, by rw [toList_append, hp]; simp⟩

theorem bulletLines_contains {xs : List String} {x : String} (h : x ∈ xs) :
    Contains (bulletLines xs) x := by
  induction xs with
  | nil => cases h
  | cons y ys ih =>
    rcases List.mem_cons.mp h with rfl | hmem
    · exact contains_appendR "- " (contains_appendL _ (contains_self x))
    · exact contains_appendR "- " (contains_appendR y (contains_appendR "\n" (ih hmem)))

theorem metricLines_contains {xs : List (String × String)} {kv : String × String}
    (h : kv ∈ xs) :
    Contains (metricLines xs) kv.1 ∧ Contains (metricLines xs) kv.2 := by
  induction xs with
  | nil => cases h
  | cons y ys ih =>
    rcases List.mem_cons.mp h with rfl | hmem
    · constructor
      · exact contains_appendR "- " (contains_appendL _ (contains_self kv.1))
      · exact contains_appendR "- " (contains_appendR kv.1 (contains_appendR ": "
          (contains_appendL _ (contains_self kv.2))))
    · constructor
      · exact contains_appendR "- " (contains_appendR y.1 (contains_appendR ": "
          (contains_appendR y.2 (contains_appendR "\n" (ih hmem).1))))
      · exact contains_appendR "- " (contains_appendR y.1 (contains_appendR ": "
          (contains_appendR y.2 (contains_appendR "\n" (ih hmem).2))))

theorem assumptionLines_contains {xs : List Assumption} {a : Assumption} (h : a ∈ xs) :
    Contains (assumptionLines xs) a.claim := by
  induction xs with
  | nil => cases h
  | cons y ys ih =>
    rcases List.mem_cons.mp h with rfl | hmem
    · exact contains_appendR "- " (contains_appendL _ (contains_self a.claim))
    · exact contains_appendR "- " (contains_appendR y.claim (contains_appendR " [impact: "
        (contains_appendR (impactText y.impact) (contains_appendR ", confidence: "
          (contains_appendR (confidenceText y.confidence)
            (contains_appendR "]\n" (ih hmem)))))))

end PMCopilot

namespace PMCopilot

theorem nodup_snoc {α : Type} {l : List α} {a : α} (ha : a ∉ l) (h : l.Nodup) :
    (l ++ [a]).Nodup := by
  induction l with
  | nil => simp
  | cons c l ih =>
    have h' := List.nodup_cons.mp h
    refine List.nodup_cons.mpr ⟨?_, ih (fun hm => ha (List.mem_cons_of_mem _ hm)) h'.2⟩
    intro hmem
    rcases List.mem_append.mp hmem with hm | hm
    · exact h'.1 hm
    · have hca : c = a := List.mem_singleton.mp hm
      subst hca
      exact ha (List.mem_cons_self _ _)

theorem execOp_frame (c : OpCall) (st : ConvState) :
    (execOp c st).message_history = st.message_history ∧
    (execOp c st).turn_count = st.turn_count ∧
    (execOp c st).pending_questions = st.pending_questions := by
  cases c
  case recordProbe p =>
    by_cases hp : p ∈ st.routing_context.probes_fired <;>
      simp [execOp, record_probe_fired, hp]
  case recordPattern q =>
    by_cases hq : q ∈ st.routing_context.patterns_fired <;>
      simp [execOp, record_pattern_fired, hq]
  case updateSummary t => simp [execOp, update_conversation_summary]
  case registerAssumption cl ty imp conf b act => simp [execOp, register_assumption]
  case updateAssumption i u =>
    by_cases hA : (st.assumption_register.any fun a => a.id = i) = true <;>
      simp [execOp, update_assumption, recover, hA]
  case updateSkeleton u => simp [execOp, update_skeleton]
  case enterMode m =>
    cases hph : st.phase <;> simp [execOp, enter_mode, recover, hph]
  case completeMode =>
    cases hph : st.phase <;> simp [execOp, complete_mode, recover, hph]
  case generateArtifact => simp [execOp, generate_artifact]

theorem execOp_probes (c : OpCall) (st : ConvState) :
    (execOp c st).routing_context.probes_fired = st.routing_context.probes_fired ∨
    ∃ p, p ∉ st.routing_context.probes_fired ∧
      (execOp c st).routing_context.probes_fired =
        st.routing_context.probes_fired ++ [p] := by
  cases c
  case recordProbe p =>
    by_cases hp : p ∈ st.routing_context.probes_fired
    · left
      simp [execOp, record_probe_fired, hp]
    · right
      exact ⟨p, hp, by simp [execOp, record_probe_fired, hp]⟩
  case recordPattern q =>
    left
    by_cases hq : q ∈ st.routing_context.patterns_fired <;>
      simp [execOp, record_pattern_fired, hq]
  case updateSummary t => left; simp [execOp, update_conversation_summary]
  case registerAssumption cl ty imp conf b act =>
    left
    simp [execOp, register_assumption]
  case updateAssumption i u =>
    left
    by_cases hA : (st.assumption_register.any fun a => a.id = i) = true <;>
      simp [execOp, update_assumption, recover, hA]
  case updateSkeleton u => left; simp [execOp, update_skeleton]
  case enterMode m =>
    left
    cases hph : st.phase <;> simp [execOp, enter_mode, recover, hph]
  case completeMode =>
    left
    cases hph : st.phase <;> simp [execOp, complete_mode, recover, hph]
  case generateArtifact => left; simp [execOp, generate_artifact]

theorem execOp_patterns (c : OpCall) (st : ConvState) :
    (execOp c st).routing_context.patterns_fired = st.routing_context.patterns_fired ∨
    ∃ q, q ∉ st.routing_context.patterns_fired ∧
      (execOp c st).routing_context.patterns_fired =
        st.routing_context.patterns_fired ++ [q] := by
  cases c
  case recordProbe p =>
    left
    by_cases hp : p ∈ st.routing_context.probes_fired <;>
      simp [execOp, record_probe_fired, hp]
  case recordPattern q =>
    by_cases hq : q ∈ st.routing_context.patterns_fired
    · left
      simp [execOp, record_pattern_fired, hq]
    · right
      exact ⟨q, hq, by simp [execOp, record_pattern_fired, hq]⟩
  case updateSummary t => left; simp [execOp, update_conversation_summary]
  case registerAssumption cl ty imp conf b act =>
    left
    simp [execOp, register_assumption]
  case updateAssumption i u =>
    left
    by_cases hA : (st.assumption_register.any fun a => a.id = i) = true <;>
      simp [execOp, update_assumption, recover, hA]
  case updateSkeleton u => left; simp [execOp, update_skeleton]
  case enterMode m =>
    left
    cases hph : st.phase <;> simp [execOp, enter_mode, recover, hph]
  case completeMode =>
    left
    cases hph : st.phase <;> simp [execOp, complete_mode, recover, hph]
  case generateArtifact => left; simp [execOp, generate_artifact]

theorem execOp_phase_mode (c : OpCall) (st : ConvState) :
    ((execOp c st).phase = st.phase ∧ (execOp c st).active_mode = st.active_mode) ∨
    (st.phase = Phase.gathering ∧ (execOp c st).phase = Phase.in_mode ∧
      ∃ m, (execOp c st).active_mode = some m) ∨
    (st.phase = Phase.in_mode ∧ (execOp c st).phase = Phase.gathering ∧
      (execOp c st).active_mode = none) := by
  cases c
  case recordProbe p =>
    left
    by_cases hp : p ∈ st.routing_context.probes_fired <;>
      simp [execOp, record_probe_fired, hp]
  case recordPattern q =>
    left
    by_cases hq : q ∈ st.routing_context.patterns_fired <;>
      simp [execOp, record_pattern_fired, hq]
  case updateSummary t => left; simp [execOp, update_conversation_summary]
  case registerAssumption cl ty imp conf b act =>
    left
    simp [execOp, register_assumption]
  case updateAssumption i u =>
    left
    by_cases hA : (st.assumption_register.any fun a => a.id = i) = true <;>
      simp [execOp, update_assumption, recover, hA]
  case updateSkeleton u => left; simp [execOp, update_skeleton]
  case enterMode m =>
    cases hph : st.phase
    · right
      left
      refine ⟨rfl, ?_, m, ?_⟩ <;> simp [execOp, enter_mode, recover, hph]
    · left
      constructor <;> simp [execOp, enter_mode, recover, hph]
  case completeMode =>
    cases hph : st.phase
    · left
      constructor <;> simp [execOp, complete_mode, recover, hph]
    · right
      right
      refine ⟨rfl, ?_, ?_⟩ <;> simp [execOp, complete_mode, recover, hph]
  case generateArtifact => left; simp [execOp, generate_artifact]

end PMCopilot

namespace PMCopilot

theorem execOp_inv (c : OpCall) (st : ConvState) (h : StateInv st) :
    StateInv (execOp c st) := by
  obtain ⟨h1, h2, h3⟩ := h
  refine ⟨?_, ?_, ?_⟩
  · rcases execOp_probes c st with he | ⟨p, hp, he⟩
    · rw [he]; exact h1
    · rw [he]; exact nodup_snoc hp h1
  · rcases execOp_patterns c st with he | ⟨q, hq, he⟩
    · rw [he]; exact h2
    · rw [he]; exact nodup_snoc hq h2
  · rcases execOp_phase_mode c st with ⟨hp, hm⟩ | ⟨hg, hp, m, hm⟩ | ⟨hg, hp, hm⟩
    · rw [hp, hm]; exact h3
    · rw [hp, hm]; simp
    · rw [hp, hm]; simp

theorem execOp_probe_mem (c : OpCall) (st : ConvState) {p : String}
    (h : p ∈ st.routing_context.probes_fired) :
    p ∈ (execOp c st).routing_context.probes_fired := by
  rcases execOp_probes c st with he | ⟨q, _, he⟩ <;> rw [he] <;> simp [h]

theorem execOp_pattern_mem (c : OpCall) (st : ConvState) {q : String}
    (h : q ∈ st.routing_context.patterns_fired) :
    q ∈ (execOp c st).routing_context.patterns_fired := by
  rcases execOp_patterns c st with he | ⟨r, _, he⟩ <;> rw [he] <;> simp [h]

theorem execOps_cons (c : OpCall) (ops : List OpCall) (st : ConvState) :
    execOps (c :: ops) st = execOps ops (execOp c st) := rfl

theorem execOps_nil (st : ConvState) : execOps [] st = st := rfl

theorem execOps_frame (ops : List OpCall) : ∀ st : ConvState,
    (execOps ops st).message_history = st.message_history ∧
    (execOps ops st).turn_count = st.turn_count ∧
    (execOps ops st).pending_questions = st.pending_questions := by
  induction ops with
  | nil => intro st; exact ⟨rfl, rfl, rfl⟩
  | cons c ops ih =>
    intro st
    rw [execOps_cons]
    obtain ⟨e1, e2, e3⟩ := ih (execOp c st)
    obtain ⟨f1, f2, f3⟩ := execOp_frame c st
    exact ⟨e1.trans f1, e2.trans f2, e3.trans f3⟩

theorem execOps_inv (ops : List OpCall) : ∀ st : ConvState,
    StateInv st → StateInv (execOps ops st) := by
  induction ops with
  | nil => intro st h; exact h
  | cons c ops ih =>
    intro st h
    rw [execOps_cons]
    exact ih _ (execOp_inv c st h)

theorem execOps_probe_mem (ops : List OpCall) : ∀ (st : ConvState) {p : String},
    p ∈ st.routing_context.probes_fired →
    p ∈ (execOps ops st).routing_context.probes_fired := by
  induction ops with
  | nil => intro st p h; exact h
  | cons c ops ih =>
    intro st p h
    rw [execOps_cons]
    exact ih _ (execOp_probe_mem c st h)

theorem execOps_pattern_mem (ops : List OpCall) : ∀ (st : ConvState) {q : String},
    q ∈ st.routing_context.patterns_fired →
    q ∈ (execOps ops st).routing_context.patterns_fired := by
  induction ops with
  | nil => intro st q h; exact h
  | cons c ops ih =>
    intro st q h
    rw [execOps_cons]
    exact ih _ (execOp_pattern_mem c st h)

theorem exchange_some (script : List RoundResp) : ∀ (st st' : ConvState) (r : String),
    exchange script st = some (st', r) →
    st'.message_history = st.message_history ∧
    st'.turn_count = st.turn_count ∧
    st'.pending_questions = st.pending_questions ∧
    (StateInv st → StateInv st') ∧
    (∀ p, p ∈ st.routing_context.probes_fired → p ∈ st'.routing_context.probes_fired) ∧
    (∀ q, q ∈ st.routing_context.patterns_fired → q ∈ st'.routing_context.patterns_fired) := by
  induction script with
  | nil =>
    intro st st' r h
    simp only [exchange, Option.some.injEq, Prod.mk.injEq] at h
    obtain ⟨rfl, rfl⟩ := h
    exact ⟨rfl, rfl, rfl, fun h => h, fun _ h => h, fun _ h => h⟩
  | cons head tail ih =>
    intro st st' r h
    cases head with
    | text t =>
      simp only [exchange, Option.some.injEq, Prod.mk.injEq] at h
      obtain ⟨rfl, rfl⟩ := h
      exact ⟨rfl, rfl, rfl, fun h => h, fun _ h => h, fun _ h => h⟩
    | unavailable =>
      simp only [exchange] at h
      exact Option.noConfusion h
    | calls ops =>
      simp only [exchange] at h
      obtain ⟨e1, e2, e3, e4, e5, e6⟩ := ih _ _ _ h
      obtain ⟨f1, f2, f3⟩ := execOps_frame ops st
      refine ⟨e1.trans f1, e2.trans f2, e3.trans f3, ?_, ?_, ?_⟩
      · intro hinv
        exact e4 (execOps_inv ops st hinv)
      · intro p hp
        exact e5 p (execOps_probe_mem ops st hp)
      · intro q hq
        exact e6 q (execOps_pattern_mem ops st hq)

end PMCopilot

namespace PMCopilot

theorem run_turn_none_eq {script : List RoundResp} {msg : String} {st st' : ConvState}
    (h : run_turn script msg st = (none, st')) :
    st' = { st with message_history :=
      st.message_history ++ [{ role := "user", content := msg }] } := by
  simp only [run_turn] at h
  rcases hx : exchange script { st with message_history :=
      st.message_history ++ [{ role := "user", content := msg }] } with _ | ⟨st2, reply⟩
  · rw [hx] at h
    simp only [Prod.mk.injEq] at h
    exact h.2.symm
  · rw [hx] at h
    simp only [Prod.mk.injEq] at h
    exact absurd h.1 (by simp)

theorem run_turn_some_eq {script : List RoundResp} {msg : String} {st st' : ConvState}
    {r : String} (h : run_turn script msg st = (some r, st')) :
    st'.message_history = st.message_history ++
      [{ role := "user", content := msg }, { role := "assistant", content := r }] ∧
    st'.turn_count = st.turn_count + 1 ∧
    st'.pending_questions = st.pending_questions ∧
    (StateInv st → StateInv st') ∧
    (∀ p, p ∈ st.routing_context.probes_fired → p ∈ st'.routing_context.probes_fired) ∧
    (∀ q, q ∈ st.routing_context.patterns_fired → q ∈ st'.routing_context.patterns_fired) := by
  simp only [run_turn] at h
  rcases hx : exchange script { st with message_history :=
      st.message_history ++ [{ role := "user", content := msg }] } with _ | ⟨st2, reply⟩
  · rw [hx] at h
    simp only [Prod.mk.injEq] at h
    exact absurd h.1 (by simp)
  · rw [hx] at h
    simp only [Prod.mk.injEq, Option.some.injEq] at h
    obtain ⟨hreply, hst'⟩ := h
    subst hreply
    subst hst'
    obtain ⟨e1, e2, e3, e4, e5, e6⟩ := exchange_some script _ _ _ hx
    refine ⟨?_, ?_, ?_, ?_, ?_, ?_⟩
    · show st2.message_history ++ [{ role := "assistant", content := reply }] = _
      rw [e1]
      show st.message_history ++ [{ role := "user", content := msg }] ++ _ = _
      simp
    · show st2.turn_count + 1 = st.turn_count + 1
      rw [e2]
    · exact e3
    · intro hinv
      exact e4 hinv
    · intro p hp
      exact e5 p hp
    · intro q hq
      exact e6 q hq

theorem run_turn_snd_props (script : List RoundResp) (msg : String) (st : ConvState) :
    (StateInv st → StateInv (run_turn script msg st).2) ∧
    (∀ p, p ∈ st.routing_context.probes_fired →
      p ∈ (run_turn script msg st).2.routing_context.probes_fired) ∧
    (∀ q, q ∈ st.routing_context.patterns_fired →
      q ∈ (run_turn script msg st).2.routing_context.patterns_fired) := by
  rcases hr : run_turn script msg st with ⟨o, st'⟩
  cases o with
  | none =>
    have he := run_turn_none_eq hr
    subst he
    exact ⟨fun h => h, fun _ h => h, fun _ h => h⟩
  | some r =>
    have hs := run_turn_some_eq hr
    exact ⟨hs.2.2.2.1, hs.2.2.2.2.1, hs.2.2.2.2.2⟩

theorem step_props {st st' : ConvState} (h : Step st st') :
    (StateInv st → StateInv st') ∧
    (∀ p, p ∈ st.routing_context.probes_fired → p ∈ st'.routing_context.probes_fired) ∧
    (∀ q, q ∈ st.routing_context.patterns_fired → q ∈ st'.routing_context.patterns_fired) := by
  cases h with
  | op c =>
    exact ⟨execOp_inv c st, fun p hp => execOp_probe_mem c st hp,
      fun q hq => execOp_pattern_mem c st hq⟩
  | turn script msg => exact run_turn_snd_props script msg st

theorem reachableFrom_props {a b : ConvState} (h : ReachableFrom a b) :
    (StateInv a → StateInv b) ∧
    (∀ p, p ∈ a.routing_context.probes_fired → p ∈ b.routing_context.probes_fired) ∧
    (∀ q, q ∈ a.routing_context.patterns_fired → q ∈ b.routing_context.patterns_fired) := by
  have key : ∀ b' : ConvState, Relation.ReflTransGen Step a b' →
      (StateInv a → StateInv b') ∧
      (∀ p, p ∈ a.routing_context.probes_fired → p ∈ b'.routing_context.probes_fired) ∧
      (∀ q, q ∈ a.routing_context.patterns_fired → q ∈ b'.routing_context.patterns_fired) := by
    intro b' h'
    induction h' with
    | refl => exact ⟨fun h => h, fun _ h => h, fun _ h => h⟩
    | tail _ hstep ih =>
      obtain ⟨i1, i2, i3⟩ := ih
      obtain ⟨s1, s2, s3⟩ := step_props hstep
      exact ⟨fun h => s1 (i1 h), fun p hp => s2 p (i2 p hp), fun q hq => s3 q (i3 q hq)⟩
  exact key b h

theorem initState_inv : StateInv initState := by
  refine ⟨?_, ?_, ?_⟩ <;> simp [StateInv, initState, initRouting]

theorem reachable_inv {st : ConvState} (h : Reachable st) : StateInv st :=
  (reachableFrom_props h).1 initState_inv

theorem record_probe_mem (p : String) (st : ConvState) :
    p ∈ (record_probe_fired p st).routing_context.probes_fired := by
  unfold record_probe_fired
  split
  · assumption
  · simp

theorem record_pattern_mem (q : String) (st : ConvState) :
    q ∈ (record_pattern_fired q st).routing_context.patterns_fired := by
  unfold record_pattern_fired
  split
  · assumption
  · simp

theorem record_probe_idem (p : String) (st : ConvState) :
    record_probe_fired p (record_probe_fired p st) = record_probe_fired p st := by
  have h := record_probe_mem p st
  rw [record_probe_fired, if_pos h]

theorem record_pattern_idem (q : String) (st : ConvState) :
    record_pattern_fired q (record_pattern_fired q st) = record_pattern_fired q st := by
  have h := record_pattern_mem q st
  rw [record_pattern_fired, if_pos h]

end PMCopilot

namespace PMCopilot

theorem unionInto_nil (base : List String) : unionInto base [] = base := rfl

theorem unionInto_cons (base : List String) (x : String) (xs : List String) :
    unionInto base (x :: xs) =
      unionInto (if x ∈ base then base else base ++ [x]) xs := rfl

theorem unionInto_extends (add : List String) : ∀ base : List String,
    ∃ t, unionInto base add = base ++ t := by
  induction add with
  | nil => intro base; exact ⟨[], by simp [unionInto_nil]⟩
  | cons x xs ih =>
    intro base
    rw [unionInto_cons]
    by_cases hx : x ∈ base
    · rw [if_pos hx]
      exact ih base
    · rw [if_neg hx]
      obtain ⟨t, ht⟩ := ih (base ++ [x])
      exact ⟨[x] ++ t, by rw [ht]; simp⟩

theorem unionInto_nodup (add : List String) : ∀ base : List String,
    base.Nodup → (unionInto base add).Nodup := by
  induction add with
  | nil => intro base h; exact h
  | cons x xs ih =>
    intro base h
    rw [unionInto_cons]
    by_cases hx : x ∈ base
    · rw [if_pos hx]
      exact ih base h
    · rw [if_neg hx]
      exact ih _ (nodup_snoc hx h)

theorem unionInto_length (add base : List String) :
    base.length ≤ (unionInto base add).length := by
  obtain ⟨t, ht⟩ := unionInto_extends add base
  rw [ht]
  simp

theorem foldl_merge_stakeholders_length (us : List SkeletonUpdate) : ∀ sk : Skeleton,
    sk.stakeholders.length ≤ (us.foldl mergeSkeleton sk).stakeholders.length := by
  induction us with
  | nil => intro sk; exact le_refl _
  | cons u us ih =>
    intro sk
    calc sk.stakeholders.length
        ≤ (mergeSkeleton sk u).stakeholders.length := unionInto_length _ _
      _ ≤ _ := ih (mergeSkeleton sk u)

theorem selectedNums_cons_true {sel : String → Bool} {q : String × String}
    (qs : List (String × String)) (h : sel q.1 = true) :
    selectedNums (q :: qs) sel = q.1 :: selectedNums qs sel := by
  simp [selectedNums, List.filter_cons, h]

theorem selectedNums_cons_false {sel : String → Bool} {q : String × String}
    (qs : List (String × String)) (h : sel q.1 = false) :
    selectedNums (q :: qs) sel = selectedNums qs sel := by
  simp [selectedNums, List.filter_cons, h]

theorem selectedNums_length_le (sel : String → Bool) (qs : List (String × String)) :
    (selectedNums qs sel).length ≤ qs.length := by
  simp only [selectedNums, List.length_map]
  exact List.length_filter_le _ _

theorem selectedNums_eq_nil_iff (sel : String → Bool) (qs : List (String × String)) :
    selectedNums qs sel = [] ↔ ∀ q ∈ qs, sel q.1 = false := by
  induction qs with
  | nil => simp [selectedNums]
  | cons q qs ih =>
    cases h : sel q.1
    · rw [selectedNums_cons_false qs h]
      simp only [List.mem_cons]
      constructor
      · intro hnil q' hq'
        rcases hq' with rfl | hq'
        · exact h
        · exact (ih.mp hnil) q' hq'
      · intro hall
        exact ih.mpr fun q' hq' => hall q' (Or.inr hq')
    · rw [selectedNums_cons_true qs h]
      simp only [List.mem_cons]
      constructor
      · intro hcontra
        exact absurd hcontra (List.cons_ne_nil _ _)
      · intro hall
        have := hall q (Or.inl rfl)
        rw [h] at this
        exact absurd this (by decide)

theorem selectedNums_length_lt_iff (sel : String → Bool) (qs : List (String × String)) :
    (selectedNums qs sel).length < qs.length ↔ ∃ q ∈ qs, sel q.1 = false := by
  induction qs with
  | nil => simp [selectedNums]
  | cons q qs ih =>
    cases h : sel q.1
    · rw [selectedNums_cons_false qs h]
      simp only [List.length_cons, List.mem_cons]
      constructor
      · intro _
        exact ⟨q, Or.inl rfl, h⟩
      · intro _
        exact Nat.lt_succ_of_le (selectedNums_length_le sel qs)
    · rw [selectedNums_cons_true qs h]
      simp only [List.length_cons, Nat.succ_lt_succ_iff, List.mem_cons]
      rw [ih]
      constructor
      · rintro ⟨q', hq', hsel⟩
        exact ⟨q', Or.inr hq', hsel⟩
      · rintro ⟨q', hq', hsel⟩
        rcases hq' with rfl | hq'
        · rw [h] at hsel
          exact absurd hsel (by decide)
        · exact ⟨q', hq', hsel⟩

theorem consumePending_history (st : ConvState) :
    (consumePending st).message_history = st.message_history := by
  unfold consumePending
  split <;> rfl

theorem consumePending_pending (st : ConvState)
    (h : truthy st.pending_questions = true) :
    (consumePending st).pending_questions = none := by
  unfold consumePending
  rw [if_pos h]

theorem consumePending_id (st : ConvState)
    (h : truthy st.pending_questions = false) :
    consumePending st = st := by
  unfold consumePending
  rw [if_neg]
  simp [h]

theorem rewriteFirstUser_cons_neg {m : Message} {target clean : String}
    (l : List Message) (h : ¬(m.role = "user" ∧ m.content = target)) :
    rewriteFirstUser target clean (m :: l) = m :: rewriteFirstUser target clean l := by
  simp only [rewriteFirstUser]
  rw [if_neg h]

theorem rewriteFirstUser_cons_pos {m : Message} {target clean : String}
    (l : List Message) (h : m.role = "user" ∧ m.content = target) :
    rewriteFirstUser target clean (m :: l) = { m with content := clean } :: l := by
  simp only [rewriteFirstUser]
  rw [if_pos h]

theorem rewriteLastUser_append2 (old : List Message) (inp u r : String) :
    rewriteLastUser inp u (old ++
        [{ role := "user", content := inp }, { role := "assistant", content := r }]) =
      old ++ [{ role := "user", content := u }, { role := "assistant", content := r }] := by
  unfold rewriteLastUser
  have h1 : (old ++ [({ role := "user", content := inp } : Message),
      { role := "assistant", content := r }]).reverse =
      ({ role := "assistant", content := r } : Message) ::
        { role := "user", content := inp } :: old.reverse := by
    simp
  rw [h1]
  have hne : ¬(({ role := "assistant", content := r } : Message).role = "user" ∧
      ({ role := "assistant", content := r } : Message).content = inp) := by
    intro hc
    have hru : "assistant" = "user" := hc.1
    exact absurd hru (by decide)
  have hpos : (({ role := "user", content := inp } : Message).role = "user" ∧
      ({ role := "user", content := inp } : Message).content = inp) := ⟨rfl, rfl⟩
  rw [rewriteFirstUser_cons_neg _ hne]
  rw [rewriteFirstUser_cons_pos _ hpos]
  simp

end PMCopilot

namespace PMCopilot

/-- Claim C1: for every probe id `p` and pattern id `q`, recording twice
(in the same or a later turn) leaves `probes_fired` (resp. `patterns_fired`)
with exactly one occurrence of the id: the second call is a no-op, the
count is 1 right after the call, and it stays 1 in every state reachable
afterwards. -/
theorem probe_pattern_recording_idempotent :
    ∀ st : ConvState, Reachable st → ∀ p q : String,
    record_probe_fired p (record_probe_fired p st) = record_probe_fired p st ∧
    (record_probe_fired p st).routing_context.probes_fired.count p = 1 ∧
    (∀ st', ReachableFrom (record_probe_fired p st) st' →
      st'.routing_context.probes_fired.count p = 1) ∧
    record_pattern_fired q (record_pattern_fired q st) = record_pattern_fired q st ∧
    (record_pattern_fired q st).routing_context.patterns_fired.count q = 1 ∧
    (∀ st', ReachableFrom (record_pattern_fired q st) st' →
      st'.routing_context.patterns_fired.count q = 1) := by
  intro st hreach p q
  have hinv := reachable_inv hreach
  have hinvP : StateInv (record_probe_fired p st) :=
    execOp_inv (OpCall.recordProbe p) st hinv
  have hinvQ : StateInv (record_pattern_fired q st) :=
    execOp_inv (OpCall.recordPattern q) st hinv
  refine ⟨record_probe_idem p st, ?_, ?_, record_pattern_idem q st, ?_, ?_⟩
  · exact List.count_eq_one_of_mem hinvP.1 (record_probe_mem p st)
  · intro st' hst'
    obtain ⟨i1, i2, _⟩ := reachableFrom_props hst'
    exact List.count_eq_one_of_mem (i1 hinvP).1 (i2 p (record_probe_mem p st))
  · exact List.count_eq_one_of_mem hinvQ.2.1 (record_pattern_mem q st)
  · intro st' hst'
    obtain ⟨i1, _, i3⟩ := reachableFrom_props hst'
    exact List.count_eq_one_of_mem (i1 hinvQ).2.1 (i3 q (record_pattern_mem q st))

/-- Witness for claim C1 at the initial state and concrete identifiers. -/
theorem probe_pattern_recording_idempotent_witness :
    record_probe_fired "probe_1" (record_probe_fired "probe_1" initState) =
      record_probe_fired "probe_1" initState ∧
    (record_probe_fired "probe_1" initState).routing_context.probes_fired.count "probe_1" = 1 ∧
    (∀ st', ReachableFrom (record_probe_fired "probe_1" initState) st' →
      st'.routing_context.probes_fired.count "probe_1" = 1) ∧
    record_pattern_fired "pattern_3" (record_pattern_fired "pattern_3" initState) =
      record_pattern_fired "pattern_3" initState ∧
    (record_pattern_fired "pattern_3" initState).routing_context.patterns_fired.count "pattern_3" = 1 ∧
    (∀ st', ReachableFrom (record_pattern_fired "pattern_3" initState) st' →
      st'.routing_context.patterns_fired.count "pattern_3" = 1) :=
  probe_pattern_recording_idempotent initState Relation.ReflTransGen.refl "probe_1" "pattern_3"

/-- Claim C2: in every reachable conversation state, a mode is active
(`active_mode` non-null) if and only if the phase is `in_mode`. -/
theorem mode_phase_invariant :
    ∀ st : ConvState, Reachable st →
    (st.active_mode ≠ none ↔ st.phase = Phase.in_mode) := by
  intro st h
  exact (reachable_inv h).2.2

/-- Witness for claim C2 at the initial state. -/
theorem mode_phase_invariant_witness :
    initState.active_mode ≠ none ↔ initState.phase = Phase.in_mode :=
  mode_phase_invariant initState Relation.ReflTransGen.refl

end PMCopilot

namespace PMCopilot

/-- Claim C3: `enter_mode` succeeds (phase := in_mode, active_mode := the
mode) exactly while gathering and otherwise fails with `InvalidTransition`
leaving the state unchanged; `complete_mode` succeeds (phase := gathering,
active_mode := null) exactly while in a mode and otherwise fails the same
way; and no operation other than these two ever changes phase or
active_mode. -/
theorem mode_transitions_exclusive :
    ∀ (st : ConvState) (m : String),
    (st.phase = Phase.gathering →
      enter_mode m st = Except.ok { st with phase := Phase.in_mode, active_mode := some m }) ∧
    (st.phase ≠ Phase.gathering →
      enter_mode m st = Except.error OpError.invalidTransition ∧
      execOp (OpCall.enterMode m) st = st) ∧
    (st.phase = Phase.in_mode →
      complete_mode st = Except.ok { st with phase := Phase.gathering, active_mode := none }) ∧
    (st.phase ≠ Phase.in_mode →
      complete_mode st = Except.error OpError.invalidTransition ∧
      execOp OpCall.completeMode st = st) ∧
    (∀ c : OpCall, (∀ m', c ≠ OpCall.enterMode m') → c ≠ OpCall.completeMode →
      (execOp c st).phase = st.phase ∧ (execOp c st).active_mode = st.active_mode) := by
  intro st m
  refine ⟨?_, ?_, ?_, ?_, ?_⟩
  · intro h
    simp [enter_mode, h]
  · intro h
    have h' : st.phase = Phase.in_mode := by
      cases hph : st.phase
      · exact absurd hph h
      · rfl
    constructor
    · simp [enter_mode, h']
    · simp [execOp, enter_mode, h', recover]
  · intro h
    simp [complete_mode, h]
  · intro h
    have h' : st.phase = Phase.gathering := by
      cases hph : st.phase
      · rfl
      · exact absurd hph h
    constructor
    · simp [complete_mode, h']
    · simp [execOp, complete_mode, h', recover]
  · intro c hEnter hComplete
    cases c
    case recordProbe p =>
      by_cases hp : p ∈ st.routing_context.probes_fired <;>
        simp [execOp, record_probe_fired, hp]
    case recordPattern q =>
      by_cases hq : q ∈ st.routing_context.patterns_fired <;>
        simp [execOp, record_pattern_fired, hq]
    case updateSummary t => simp [execOp, update_conversation_summary]
    case registerAssumption cl ty imp conf b act => simp [execOp, register_assumption]
    case updateAssumption i u =>
      by_cases hA : (st.assumption_register.any fun a => a.id = i) = true <;>
        simp [execOp, update_assumption, recover, hA]
    case updateSkeleton u => simp [execOp, update_skeleton]
    case enterMode m' => exact absurd rfl (hEnter m')
    case completeMode => exact absurd rfl hComplete
    case generateArtifact => simp [execOp, generate_artifact]

/-- Claim C4: a successful `run_turn` increments `turn_count` by exactly
one and appends exactly the user message then the assistant reply to
`message_history` (length +2); on `ServiceUnavailable` the returned state
is the prior state with only the user message appended (length +1), so
the turn can be resubmitted. -/
theorem run_turn_history_monotonic :
    ∀ (script : List RoundResp) (msg : String) (st : ConvState),
    (∀ (reply : String) (st' : ConvState),
      run_turn script msg st = (some reply, st') →
      st'.turn_count = st.turn_count + 1 ∧
      st'.message_history = st.message_history ++
        [{ role := "user", content := msg }, { role := "assistant", content := reply }] ∧
      st'.message_history.length = st.message_history.length + 2) ∧
    (∀ st' : ConvState,
      run_turn script msg st = (none, st') →
      st' = { st with message_history :=
        st.message_history ++ [{ role := "user", content := msg }] } ∧
      st'.message_history.length = st.message_history.length + 1) := by
  intro script msg st
  constructor
  · intro reply st' h
    obtain ⟨e1, e2, _⟩ := run_turn_some_eq h
    exact ⟨e2, e1, by rw [e1]; simp⟩
  · intro st' h
    have he := run_turn_none_eq h
    refine ⟨he, ?_⟩
    rw [he]
    simp

end PMCopilot

namespace PMCopilot

theorem append_toList_decomp (a b : String) :
    ∃ rest, (a ++ b).toList = a.toList ++ rest :=
  ⟨b.toList, toList_append a b⟩

theorem renderArtifact_contains (sk : Skeleton) (reg : List Assumption) :
    (∃ rest, (renderArtifact sk reg).toList = "# Problem Brief".toList ++ rest) ∧
    (∀ ps, sk.problem_statement = some ps → Contains (renderArtifact sk reg) ps) ∧
    (∀ nm, nm ∈ sk.stakeholders → Contains (renderArtifact sk reg) nm) ∧
    (∀ kv, kv ∈ sk.success_metrics →
      Contains (renderArtifact sk reg) kv.1 ∧ Contains (renderArtifact sk reg) kv.2) ∧
    (∀ c, c ∈ sk.decision_criteria.proceed_if → Contains (renderArtifact sk reg) c) ∧
    (∀ c, c ∈ sk.decision_criteria.do_not_proceed_if → Contains (renderArtifact sk reg) c) ∧
    (∀ a, a ∈ reg → Contains (renderArtifact sk reg) a.claim) := by
  refine ⟨?_, ?_, ?_, ?_, ?_, ?_, ?_⟩
  · exact append_toList_decomp "# Problem Brief" _
  · intro ps hps
    refine contains_appendR _ (contains_appendR _ (contains_appendL _ ?_))
    rw [hps]
    exact contains_self ps
  · intro nm hnm
    exact contains_appendR _ (contains_appendR _ (contains_appendR _ (contains_appendR _
      (contains_appendL _ (bulletLines_contains hnm)))))
  · intro kv hkv
    constructor
    · exact contains_appendR _ (contains_appendR _ (contains_appendR _ (contains_appendR _
        (contains_appendR _ (contains_appendR _
          (contains_appendL _ (metricLines_contains hkv).1))))))
    · exact contains_appendR _ (contains_appendR _ (contains_appendR _ (contains_appendR _
        (contains_appendR _ (contains_appendR _
          (contains_appendL _ (metricLines_contains hkv).2))))))
  · intro c hc
    exact contains_appendR _ (contains_appendR _ (contains_appendR _ (contains_appendR _
      (contains_appendR _ (contains_appendR _ (contains_appendR _ (contains_appendR _
        (contains_appendL _ (bulletLines_contains hc)))))))))
  · intro c hc
    exact contains_appendR _ (contains_appendR _ (contains_appendR _ (contains_appendR _
      (contains_appendR _ (contains_appendR _ (contains_appendR _ (contains_appendR _
        (contains_appendR _ (contains_appendR _
          (contains_appendL _ (bulletLines_contains hc)))))))))))
  · intro a ha
    exact contains_appendR _ (contains_appendR _ (contains_appendR _ (contains_appendR _
      (contains_appendR _ (contains_appendR _ (contains_appendR _ (contains_appendR _
        (contains_appendR _ (contains_appendR _ (contains_appendR _ (contains_appendR _
          (assumptionLines_contains ha))))))))))))

/-- Claim C5: the Artifact Generator is a pure function of the skeleton,
the assumption register and the turn metadata: `generate_artifact` is
idempotent, stores exactly the rendered text with the current turn number,
and two states agreeing on skeleton and register yield byte-identical
artifact text. -/
theorem artifact_generation_deterministic :
    ∀ st st₂ : ConvState,
    generate_artifact (generate_artifact st) = generate_artifact st ∧
    (generate_artifact st).latest_artifact =
      some ⟨renderArtifact st.document_skeleton st.assumption_register, st.turn_count⟩ ∧
    (st.document_skeleton = st₂.document_skeleton →
      st.assumption_register = st₂.assumption_register →
      artifactText (generate_artifact st) = artifactText (generate_artifact st₂)) := by
  intro st st₂
  refine ⟨rfl, rfl, ?_⟩
  intro h1 h2
  simp [artifactText, generate_artifact, h1, h2]

/-- Claim C6: every generated artifact stores the deterministic render,
whose text begins with the canonical "# Problem Brief" header and contains
the problem statement, every stakeholder, every metric, every decision
criterion, and (in the assumptions appendix) the claim of every
assumption — in particular every high-impact guessed one. -/
theorem artifact_content_complete :
    ∀ st : ConvState,
    (generate_artifact st).latest_artifact =
      some ⟨renderArtifact st.document_skeleton st.assumption_register, st.turn_count⟩ ∧
    (∃ rest, (renderArtifact st.document_skeleton st.assumption_register).toList =
      "# Problem Brief".toList ++ rest) ∧
    (∀ ps, st.document_skeleton.problem_statement = some ps →
      Contains (renderArtifact st.document_skeleton st.assumption_register) ps) ∧
    (∀ nm, nm ∈ st.document_skeleton.stakeholders →
      Contains (renderArtifact st.document_skeleton st.assumption_register) nm) ∧
    (∀ kv, kv ∈ st.document_skeleton.success_metrics →
      Contains (renderArtifact st.document_skeleton st.assumption_register) kv.1 ∧
      Contains (renderArtifact st.document_skeleton st.assumption_register) kv.2) ∧
    (∀ c, c ∈ st.document_skeleton.decision_criteria.proceed_if →
      Contains (renderArtifact st.document_skeleton st.assumption_register) c) ∧
    (∀ c, c ∈ st.document_skeleton.decision_criteria.do_not_proceed_if →
      Contains (renderArtifact st.document_skeleton st.assumption_register) c) ∧
    (∀ a, a ∈ st.assumption_register → a.impact = Impact.high →
      a.confidence = Confidence.guessed →
      Contains (renderArtifact st.document_skeleton st.assumption_register) a.claim) := by
  intro st
  obtain ⟨r1, r2, r3, r4, r5, r6, r7⟩ :=
    renderArtifact_contains st.document_skeleton st.assumption_register
  exact ⟨rfl, r1, r2, r3, r4, r5, r6, fun a ha _ _ => r7 a ha⟩

end PMCopilot

namespace PMCopilot

theorem setMetric_length (ms : List (String × String)) (kv : String × String) :
    ms.length ≤ (setMetric ms kv).length := by
  unfold setMetric
  split
  · rw [List.length_map]
  · simp

theorem setMetric_key {ms : List (String × String)} {k v : String}
    (kv : String × String) (h : (k, v) ∈ ms) :
    ∃ v', (k, v') ∈ setMetric ms kv := by
  unfold setMetric
  split
  · by_cases hk : k = kv.1
    · refine ⟨kv.2, ?_⟩
      have hm := List.mem_map_of_mem (fun e => if e.1 = kv.1 then (e.1, kv.2) else e) h
      have he : (fun e => if e.1 = kv.1 then (e.1, kv.2) else e)
          ((k, v) : String × String) = (k, kv.2) := by
        simp [hk]
      rw [he] at hm
      exact hm
    · refine ⟨v, ?_⟩
      have hm := List.mem_map_of_mem (fun e => if e.1 = kv.1 then (e.1, kv.2) else e) h
      have he : (fun e => if e.1 = kv.1 then (e.1, kv.2) else e)
          ((k, v) : String × String) = (k, v) := by
        simp [hk]
      rw [he] at hm
      exact hm
  · exact ⟨v, List.mem_append_left _ h⟩

theorem setMetric_untouched {ms : List (String × String)} {k v : String}
    (kv : String × String) (h : (k, v) ∈ ms) (hk : k ≠ kv.1) :
    (k, v) ∈ setMetric ms kv := by
  unfold setMetric
  split
  · have hm := List.mem_map_of_mem (fun e => if e.1 = kv.1 then (e.1, kv.2) else e) h
    have he : (fun e => if e.1 = kv.1 then (e.1, kv.2) else e)
        ((k, v) : String × String) = (k, v) := by
      simp [hk]
    rw [he] at hm
    exact hm
  · exact List.mem_append_left _ h

theorem foldl_setMetric_length (adds : List (String × String)) :
    ∀ ms : List (String × String), ms.length ≤ (adds.foldl setMetric ms).length := by
  induction adds with
  | nil => intro ms; exact le_refl _
  | cons a adds ih =>
    intro ms
    calc ms.length ≤ (setMetric ms a).length := setMetric_length ms a
      _ ≤ _ := ih (setMetric ms a)

theorem foldl_setMetric_key (adds : List (String × String)) :
    ∀ (ms : List (String × String)) (k v : String), (k, v) ∈ ms →
    ∃ v', (k, v') ∈ adds.foldl setMetric ms := by
  induction adds with
  | nil => intro ms k v h; exact ⟨v, h⟩
  | cons a adds ih =>
    intro ms k v h
    obtain ⟨v1, h1⟩ := setMetric_key a h
    exact ih (setMetric ms a) k v1 h1

theorem foldl_setMetric_untouched (adds : List (String × String)) :
    ∀ (ms : List (String × String)) (k v : String), (k, v) ∈ ms →
    (∀ kv ∈ adds, kv.1 ≠ k) → (k, v) ∈ adds.foldl setMetric ms := by
  induction adds with
  | nil => intro ms k v h _; exact h
  | cons a adds ih =>
    intro ms k v h hall
    have h1 : (k, v) ∈ setMetric ms a :=
      setMetric_untouched a h (fun he => hall a (List.mem_cons_self _ _) he.symm)
    exact ih (setMetric ms a) k v h1 (fun kv hkv => hall kv (List.mem_cons_of_mem _ hkv))

/-- Claim C7: `update_skeleton` merges: the stakeholder set only grows at
the end (never duplicated, size non-decreasing, also under any sequence of
updates), the decision-criteria lists only grow by appending, the problem
statement is replaced wholesale exactly when a value is supplied, and the
metric mapping never loses an entry — a populated key keeps some value
(unchanged unless the update explicitly supplies that key), so no
already-populated skeleton field ever regresses to empty without an
explicit replacement. -/
theorem skeleton_merge_non_regression :
    ∀ (sk : Skeleton) (u : SkeletonUpdate) (us : List SkeletonUpdate),
    (∃ t, (mergeSkeleton sk u).stakeholders = sk.stakeholders ++ t) ∧
    (sk.stakeholders.Nodup → (mergeSkeleton sk u).stakeholders.Nodup) ∧
    sk.stakeholders.length ≤ (mergeSkeleton sk u).stakeholders.length ∧
    sk.stakeholders.length ≤ (us.foldl mergeSkeleton sk).stakeholders.length ∧
    (mergeSkeleton sk u).decision_criteria.proceed_if =
      sk.decision_criteria.proceed_if ++ u.proceed_if ∧
    (mergeSkeleton sk u).decision_criteria.do_not_proceed_if =
      sk.decision_criteria.do_not_proceed_if ++ u.do_not_proceed_if ∧
    (u.problem_statement = none →
      (mergeSkeleton sk u).problem_statement = sk.problem_statement) ∧
    (∀ p, u.problem_statement = some p →
      (mergeSkeleton sk u).problem_statement = some p) ∧
    ((mergeSkeleton sk u).problem_statement = none →
      sk.problem_statement = none ∧ u.problem_statement = none) ∧
    sk.success_metrics.length ≤ (mergeSkeleton sk u).success_metrics.length ∧
    (∀ kv, kv ∈ sk.success_metrics →
      ∃ v, (kv.1, v) ∈ (mergeSkeleton sk u).success_metrics) ∧
    (∀ kv, kv ∈ sk.success_metrics →
      (∀ kv', kv' ∈ u.success_metrics → kv'.1 ≠ kv.1) →
      kv ∈ (mergeSkeleton sk u).success_metrics) ∧
    (sk.success_metrics ≠ [] → (mergeSkeleton sk u).success_metrics ≠ []) ∧
    (∀ st : ConvState,
      (update_skeleton u st).document_skeleton = mergeSkeleton st.document_skeleton u) := by
  intro sk u us
  refine ⟨unionInto_extends u.stakeholders sk.stakeholders,
    fun h => unionInto_nodup u.stakeholders sk.stakeholders h,
    unionInto_length u.stakeholders sk.stakeholders,
    foldl_merge_stakeholders_length us sk, rfl, rfl, ?_, ?_, ?_,
    foldl_setMetric_length u.success_metrics sk.success_metrics, ?_, ?_, ?_,
    fun st => rfl⟩
  · intro h
    simp [mergeSkeleton, h]
  · intro p h
    simp [mergeSkeleton, h]
  · intro h
    cases hu : u.problem_statement with
    | none =>
      refine ⟨?_, rfl⟩
      simp only [mergeSkeleton, hu] at h
      exact h
    | some p =>
      simp only [mergeSkeleton, hu] at h
      exact absurd h (by simp)
  · intro kv hkv
    exact foldl_setMetric_key u.success_metrics sk.success_metrics kv.1 kv.2 hkv
  · intro kv hkv hall
    exact foldl_setMetric_untouched u.success_metrics sk.success_metrics kv.1 kv.2 hkv hall
  · intro hne hcontra
    have hl : sk.success_metrics.length ≤ (mergeSkeleton sk u).success_metrics.length :=
      foldl_setMetric_length u.success_metrics sk.success_metrics
    rw [hcontra] at hl
    simp only [List.length_nil, Nat.le_zero] at hl
    exact hne (List.eq_nil_of_length_eq_zero hl)

theorem app_turn_cases (script : List RoundResp) (sel : String → Bool)
    (u : String) (st : ConvState) :
    (∀ st1, run_turn script (orchestrator_input st.pending_questions sel u)
        (consumePending st) = (none, st1) →
      app_turn script sel u st = st1) ∧
    (∀ r st1, run_turn script (orchestrator_input st.pending_questions sel u)
        (consumePending st) = (some r, st1) →
      orchestrator_input st.pending_questions sel u = u →
      app_turn script sel u st =
        { st1 with pending_questions :=
            if extract_questions r = [] then none else some (extract_questions r) }) ∧
    (∀ r st1, run_turn script (orchestrator_input st.pending_questions sel u)
        (consumePending st) = (some r, st1) →
      orchestrator_input st.pending_questions sel u ≠ u →
      app_turn script sel u st =
        { st1 with
          message_history :=
            rewriteLastUser (orchestrator_input st.pending_questions sel u) u
              st1.message_history,
          pending_questions :=
            if extract_questions r = [] then none else some (extract_questions r) }) := by
  refine ⟨?_, ?_, ?_⟩
  · intro st1 hr
    simp only [app_turn]
    split
    · next st1' heq =>
      rw [hr] at heq
      injection heq with h1 h2
      exact h2.symm
    · next resp st1' heq =>
      rw [hr] at heq
      exact absurd heq (by simp)
  · intro r st1 hr hiu
    simp only [app_turn]
    split
    · next st1' heq =>
      rw [hr] at heq
      exact absurd heq (by simp)
    · next resp st1' heq =>
      rw [hr] at heq
      injection heq with h1 h2
      injection h1 with h1
      subst h1
      subst h2
      rw [if_pos hiu]
  · intro r st1 hr hiu
    simp only [app_turn]
    split
    · next st1' heq =>
      rw [hr] at heq
      exact absurd heq (by simp)
    · next resp st1' heq =>
      rw [hr] at heq
      injection heq with h1 h2
      injection h1 with h1
      subst h1
      subst h2
      rw [if_neg hiu]

end PMCopilot

namespace PMCopilot

/-- Claim C8: the message history is append-only across a front-end turn:
whatever the turn's outcome, the prior history is a prefix of the new one,
and a completed turn appends exactly the clean user message and the
assistant reply at the end (the post-turn rewrite only renames the
just-appended user entry). -/
theorem message_history_append_only :
    ∀ (script : List RoundResp) (sel : String → Bool) (u : String) (st : ConvState),
    (∃ tail, (app_turn script sel u st).message_history = st.message_history ++ tail) ∧
    (∀ (resp : String) (st1 : ConvState),
      run_turn script (orchestrator_input st.pending_questions sel u)
        (consumePending st) = (some resp, st1) →
      (app_turn script sel u st).message_history = st.message_history ++
        [{ role := "user", content := u }, { role := "assistant", content := resp }]) := by
  intro script sel u st
  obtain ⟨hc1, hc2, hc3⟩ := app_turn_cases script sel u st
  have key2 : ∀ (resp : String) (st1 : ConvState),
      run_turn script (orchestrator_input st.pending_questions sel u)
        (consumePending st) = (some resp, st1) →
      (app_turn script sel u st).message_history = st.message_history ++
        [{ role := "user", content := u }, { role := "assistant", content := resp }] := by
    intro resp st1 hr
    have hmh : st1.message_history = st.message_history ++
        [{ role := "user", content := orchestrator_input st.pending_questions sel u },
         { role := "assistant", content := resp }] := by
      have h := (run_turn_some_eq hr).1
      rw [consumePending_history] at h
      exact h
    by_cases hiu : orchestrator_input st.pending_questions sel u = u
    · rw [hc2 resp st1 hr hiu]
      show st1.message_history = _
      rw [hmh, hiu]
    · rw [hc3 resp st1 hr hiu]
      show rewriteLastUser (orchestrator_input st.pending_questions sel u) u
        st1.message_history = _
      rw [hmh]
      exact rewriteLastUser_append2 _ _ _ _
  constructor
  · rcases hr : run_turn script (orchestrator_input st.pending_questions sel u)
        (consumePending st) with ⟨o, st1⟩
    cases o with
    | none =>
      refine ⟨[{ role := "user", content := orchestrator_input st.pending_questions sel u }], ?_⟩
      rw [hc1 st1 hr]
      rw [run_turn_none_eq hr]
      show (consumePending st).message_history ++ _ = _
      rw [consumePending_history]
    | some r =>
      exact ⟨_, key2 r st1 hr⟩
  · exact key2

/-- Claim C9: after a completed turn, `pending_questions` is exactly the
question list extracted from the assistant reply (null when the reply has
no "Question N" marker); a truthy pending list is cleared when the user
input consumes it, even when the turn then fails. -/
theorem pending_questions_tracking :
    ∀ (script : List RoundResp) (sel : String → Bool) (u : String) (st : ConvState),
    (∀ (resp : String) (st1 : ConvState),
      run_turn script (orchestrator_input st.pending_questions sel u)
        (consumePending st) = (some resp, st1) →
      (app_turn script sel u st).pending_questions =
        (if extract_questions resp = [] then none else some (extract_questions resp))) ∧
    (∀ st1 : ConvState,
      run_turn script (orchestrator_input st.pending_questions sel u)
        (consumePending st) = (none, st1) →
      (app_turn script sel u st).pending_questions =
        (consumePending st).pending_questions) ∧
    (truthy st.pending_questions = true →
      (consumePending st).pending_questions = none) ∧
    (truthy st.pending_questions = false → consumePending st = st) := by
  intro script sel u st
  obtain ⟨hc1, hc2, hc3⟩ := app_turn_cases script sel u st
  refine ⟨?_, ?_, consumePending_pending st, consumePending_id st⟩
  · intro resp st1 hr
    by_cases hiu : orchestrator_input st.pending_questions sel u = u
    · rw [hc2 resp st1 hr hiu]
    · rw [hc3 resp st1 hr hiu]
  · intro st1 hr
    rw [hc1 st1 hr, run_turn_none_eq hr]

/-- Claim C10: the "[User is responding to ...]" prefix is prepended to the
orchestrator input exactly when some pending question is left selected and
some other is deselected (a non-empty proper subset); with no pending
questions, all selected, or none selected, the raw user message is passed
unchanged. -/
theorem question_selection_tagging :
    ∀ (sel : String → Bool) (u : String) (qs : List (String × String)),
    orchestrator_input none sel u = u ∧
    (((∃ q ∈ qs, sel q.1 = true) ∧ (∃ q ∈ qs, sel q.1 = false)) →
      orchestrator_input (some qs) sel u =
        "[User is responding to " ++
          (questionLabels (selectedNums qs sel) ++ ("]\n\n" ++ u)) ∧
      orchestrator_input (some qs) sel u ≠ u) ∧
    ((∀ q ∈ qs, sel q.1 = true) → orchestrator_input (some qs) sel u = u) ∧
    ((∀ q ∈ qs, sel q.1 = false) → orchestrator_input (some qs) sel u = u) ∧
    (¬((∃ q ∈ qs, sel q.1 = true) ∧ (∃ q ∈ qs, sel q.1 = false)) →
      orchestrator_input (some qs) sel u = u) := by
  intro sel u qs
  have h1 : (selectedNums qs sel ≠ []) ↔ ∃ q ∈ qs, sel q.1 = true := by
    rw [Ne, selectedNums_eq_nil_iff]
    push_neg
    constructor
    · rintro ⟨q', hq', hne⟩
      refine ⟨q', hq', ?_⟩
      cases h : sel q'.1
      · exact absurd h hne
      · rfl
    · rintro ⟨q', hq', htrue⟩
      refine ⟨q', hq', ?_⟩
      rw [htrue]
      decide
  refine ⟨rfl, ?_, ?_, ?_, ?_⟩
  · rintro ⟨hT, hF⟩
    have hc : selectedNums qs sel ≠ [] ∧ (selectedNums qs sel).length < qs.length :=
      ⟨h1.mpr hT, (selectedNums_length_lt_iff sel qs).mpr hF⟩
    have hA : orchestrator_input (some qs) sel u =
        "[User is responding to " ++
          (questionLabels (selectedNums qs sel) ++ ("]\n\n" ++ u)) := by
      simp only [orchestrator_input]
      rw [if_pos hc]
    refine ⟨hA, ?_⟩
    intro heq
    rw [hA] at heq
    have hlen := congrArg (fun s : String => s.toList.length) heq
    simp only [toList_append, List.length_append] at hlen
    have e1 : "[User is responding to ".toList.length = 23 := by decide
    have e2 : "]\n\n".toList.length = 3 := by decide
    omega
  · intro hall
    simp only [orchestrator_input]
    rw [if_neg]
    rintro ⟨-, hlt⟩
    obtain ⟨q', hq', hfalse⟩ := (selectedNums_length_lt_iff sel qs).mp hlt
    rw [hall q' hq'] at hfalse
    exact absurd hfalse (by decide)
  · intro hall
    simp only [orchestrator_input]
    rw [if_neg]
    rintro ⟨hne, -⟩
    exact hne ((selectedNums_eq_nil_iff sel qs).mpr hall)
  · intro hn
    simp only [orchestrator_input]
    rw [if_neg]
    rintro ⟨hne, hlt⟩
    exact hn ⟨h1.mp hne, (selectedNums_length_lt_iff sel qs).mp hlt⟩

end PMCopilot

namespace PMCopilot

theorem extract_questions_example :
    extract_questions "Question 1: a\nQuestion 2: b" = [("1", "a"), ("2", "b")] := by
  decide

theorem extract_questions_markdown_example :
    extract_questions "**Question 3:** Why now?" = [("3", "Why now?")] := by
  decide

theorem extract_questions_none_example :
    extract_questions "no numbered markers here" = [] := by
  decide

theorem mode_roundtrip_example :
    (execOp OpCall.completeMode
      (execOp (OpCall.enterMode "discover_frame") initState)).phase =
      Phase.gathering := by
  decide

theorem orchestrator_input_example :
    orchestrator_input (some [("1", "t1"), ("2", "t2")]) (fun n => n = "1") "hi" =
      "[User is responding to Question 1]\n\nhi" := by
  decide

end PMCopilot
